import Mathlib

/-!
Verification of the Rhythm.lua task scheduler core (scheduler.hpp / scheduler.cpp
and the schedule argument checks of the Lua binding in lua-rhythm.cpp).

Shallow embedding conventions:
* Steady-clock time points and millisecond durations are both modelled as Int
  (the scheduler only ever compares, subtracts and adds them in milliseconds).
* TimePoint.max, the sentinel stored in m_nextTaskTime, is modelled by
  Option Int with none playing the role of the sentinel; timeLt below models
  a comparison t < m_nextTaskTime (anything is below the sentinel).
* The stored std::function values func and cleanup are opaque closures; the
  embedding keeps only the observable facts the scheduler itself depends on:
  whether the optional cleanup is present (hasCleanup, modelling the
  if (task.cleanup) truthiness test) and which callbacks fire, recorded as an
  Event trace (runAction id / runCleanup id) in program order.
* Clock.now() is passed in explicitly as a parameter wherever the source reads
  the clock.
-/

namespace Rhythm

/-- Embeds Scheduler::Task (scheduler.hpp): id, cleanup presence standing in
for the optional cleanup closure, interval (zero if one-shot), nextRun,
skipIfLate and active. The func closure itself is opaque and carries no
scheduler-visible state, so it has no field here. -/
structure Task where
  id : Int
  hasCleanup : Bool
  interval : Int
  nextRun : Int
  skipIfLate : Bool
  active : Bool
deriving Repr, DecidableEq

/-- Observable callback events emitted while scheduler code runs. -/
inductive Event where
  | runAction (id : Int)
  | runCleanup (id : Int)
deriving Repr, DecidableEq

/-- The id carried by an event. -/
def Event.evId : Event → Int
  | .runAction i => i
  | .runCleanup i => i

/-- Embeds the Scheduler state: m_tasks, m_nextId (starts at 1) and the cached
m_nextTaskTime, where none stands for TimePoint.max. The m_running flag and
the metrics fields are modelled separately where needed. -/
structure Scheduler where
  m_tasks : List Task
  m_nextId : Int
  m_nextTaskTime : Option Int
deriving Repr, DecidableEq

/-- A freshly constructed Scheduler. -/
def Scheduler.init : Scheduler :=
  { m_tasks := [], m_nextId := 1, m_nextTaskTime := none }

/-- Models the comparison t < m_nextTaskTime where none is TimePoint.max:
every real time point is below the sentinel. -/
def timeLt (t : Int) : Option Int → Bool
  | none => true
  | some u => t < u

namespace Scheduler

/-- Embeds Scheduler::scheduleAt (scheduler.cpp): append a one-shot task with
interval 0 and nextRun = time, bump m_nextId, and lower the cached
m_nextTaskTime if the new time precedes it. Returns the new state and the id. -/
def scheduleAt (s : Scheduler) (time : Int) (hasCleanup : Bool) :
    Scheduler × Int :=
  let task : Task :=
    { id := s.m_nextId, hasCleanup := hasCleanup, interval := 0,
      nextRun := time, skipIfLate := false, active := true }
  let ntt := if timeLt time s.m_nextTaskTime then some time else s.m_nextTaskTime
  ({ m_tasks := s.m_tasks ++ [task], m_nextId := s.m_nextId + 1,
     m_nextTaskTime := ntt }, task.id)

/-- Embeds Scheduler::scheduleAfter: scheduleAt(Clock.now() + delay, ...).
The clock reading is the explicit now argument. -/
def scheduleAfter (s : Scheduler) (now delay : Int) (hasCleanup : Bool) :
    Scheduler × Int :=
  scheduleAt s (now + delay) hasCleanup

/-- Embeds Scheduler::scheduleEvery (the five-parameter definition in
scheduler.cpp): append a recurring task with the given interval,
nextRun = now when runImmediately else now + interval, bump m_nextId and
lower the cached m_nextTaskTime if the new nextRun precedes it. -/
def scheduleEvery (s : Scheduler) (now interval : Int)
    (hasCleanup runImmediately skipIfLate : Bool) : Scheduler × Int :=
  let task : Task :=
    { id := s.m_nextId, hasCleanup := hasCleanup, interval := interval,
      nextRun := if runImmediately then now else now + interval,
      skipIfLate := skipIfLate, active := true }
  let ntt := if timeLt task.nextRun s.m_nextTaskTime then some task.nextRun
             else s.m_nextTaskTime
  ({ m_tasks := s.m_tasks ++ [task], m_nextId := s.m_nextId + 1,
     m_nextTaskTime := ntt }, task.id)

/-- Recursive helper embedding the std::find_if walk of Scheduler::cancelTask:
the first task whose id matches is marked inactive and its cleanup (when
present) fires; the function returns the updated list, the found flag and the
emitted events. Note the source checks only the id, not the active flag. -/
def cancelTaskGo (id : Int) : List Task → List Task × Bool × List Event
  | [] => ([], false, [])
  | t :: ts =>
    if t.id = id then
      ({ t with active := false } :: ts, true,
        if t.hasCleanup then [Event.runCleanup t.id] else [])
    else
      let r := cancelTaskGo id ts
      (t :: r.1, r.2.1, r.2.2)

/-- Embeds Scheduler::cancelTask. It does not touch m_nextTaskTime. -/
def cancelTask (s : Scheduler) (id : Int) : Scheduler × Bool × List Event :=
  let r := cancelTaskGo id s.m_tasks
  ({ s with m_tasks := r.1 }, r.2.1, r.2.2)

/-- Embeds the catch-up loop in Scheduler::tick for skipIfLate tasks:
while (task.nextRun <= now) task.nextRun += task.interval.
In tick the loop is reached only under interval > 0; the guard here makes the
function total and is never hit from tick. -/
def skipAhead (now interval : Int) (nextRun : Int) : Int :=
  if _h1 : 0 < interval then
    if _h2 : nextRun ≤ now then
      skipAhead now interval (nextRun + interval)
    else nextRun
  else nextRun
termination_by (now + interval - nextRun).toNat
decreasing_by
  simp_wf
  omega

/-- Embeds the body of the per-task loop in Scheduler::tick: inactive tasks
are skipped; a due task runs its action, then either is rescheduled
(interval > 0: skipAhead when skipIfLate, else one interval ahead) or, for
interval == 0, is deactivated and its cleanup (when present) fires. Returns
the updated task and the events emitted for it, in program order. -/
def processTask (now : Int) (t : Task) : Task × List Event :=
  if t.active then
    if t.nextRun ≤ now then
      if 0 < t.interval then
        if t.skipIfLate then
          ({ t with nextRun := skipAhead now t.interval t.nextRun },
            [Event.runAction t.id])
        else
          ({ t with nextRun := t.nextRun + t.interval },
            [Event.runAction t.id])
      else
        ({ t with active := false },
          Event.runAction t.id ::
            (if t.hasCleanup then [Event.runCleanup t.id] else []))
    else (t, [])
  else (t, [])

/-- The per-iteration cache update at the end of the loop body of
Scheduler::tick: if (task.active and task.nextRun < m_nextTaskTime) then
m_nextTaskTime = task.nextRun. -/
def nttFold (acc : Option Int) (t : Task) : Option Int :=
  if t.active && timeLt t.nextRun acc then some t.nextRun else acc

/-- Embeds Scheduler::tick with the clock reading now passed in: reset the
cached next time to the sentinel, process every task in order, fold the
nextRun of each still-active task into the cache, purge inactive tasks, and
reset the cache to the sentinel when the store ends up empty. The returned
event list is the concatenation of the per-task traces in store order. -/
def tick (s : Scheduler) (now : Int) : Scheduler × List Event :=
  let processed := s.m_tasks.map (processTask now)
  let ts := processed.map Prod.fst
  let evs := (processed.map Prod.snd).flatten
  let ntt := ts.foldl nttFold none
  let ts2 := ts.filter (fun t => t.active)
  let ntt2 := if ts2.isEmpty then none else ntt
  ({ m_tasks := ts2, m_nextId := s.m_nextId, m_nextTaskTime := ntt2 }, evs)

/-- Embeds Scheduler::timeUntilNextTask with the clock reading now explicit:
none at the sentinel, zero when the cached time is at or before now, and the
exact remaining duration otherwise. -/
def timeUntilNextTask (s : Scheduler) (now : Int) : Option Int :=
  match s.m_nextTaskTime with
  | none => none
  | some t => if t ≤ now then some 0 else some (t - now)

/-- Embeds Scheduler::nextTaskTime. -/
def nextTaskTime (s : Scheduler) : Option Int := s.m_nextTaskTime

/-- Embeds Scheduler::taskCount, the size of m_tasks. -/
def taskCount (s : Scheduler) : Nat := s.m_tasks.length

end Scheduler

/-- The error message raised by lua_schedule_after for a negative delay. -/
def delayErrMsg : String := "Delay must be non-negative"

/-- Embeds lua_schedule_after (lua-rhythm.cpp): a negative delay raises a Lua
error before the scheduler is touched and before any task is created; a
non-negative delay calls Scheduler::scheduleAfter and yields the task id. -/
def lua_schedule_after (s : Scheduler) (now delayMs : Int) (hasCleanup : Bool) :
    Except String (Scheduler × Int) :=
  if delayMs < 0 then Except.error delayErrMsg
  else Except.ok (Scheduler.scheduleAfter s now delayMs hasCleanup)

/-- The largest value of the unsigned int metric counters. -/
def UINT_MAX : Nat := 4294967295

/-- The largest value of DurationMs, whose representation is a 64-bit signed
count of milliseconds. -/
def DURMS_MAX : Int := 9223372036854775807

/-- The metric fields of the Scheduler: m_totalRuns, m_lateRuns and
m_totalRunTime (milliseconds). -/
structure Metrics where
  m_totalRuns : Nat
  m_lateRuns : Nat
  m_totalRunTime : Int
deriving Repr, DecidableEq

/-- Embeds Scheduler::noteTaskRun: the run counter and the late-run counter
increment only below UINT_MAX, and the accumulated run time adds runTime only
while maxDur - m_totalRunTime > runTime, else it pins to maxDur. -/
def noteTaskRun (m : Metrics) (runTime : Int) (wasLate : Bool) : Metrics :=
  { m_totalRuns :=
      if m.m_totalRuns < UINT_MAX then m.m_totalRuns + 1 else m.m_totalRuns,
    m_lateRuns :=
      if wasLate = true ∧ m.m_lateRuns < UINT_MAX then m.m_lateRuns + 1
      else m.m_lateRuns,
    m_totalRunTime :=
      if DURMS_MAX - m.m_totalRunTime > runTime then m.m_totalRunTime + runTime
      else DURMS_MAX }

/-- One top-level scheduler operation, with every clock reading the source
would perform supplied as data. -/
inductive Op where
  | schedAt (time : Int) (hasCleanup : Bool)
  | schedAfter (now delay : Int) (hasCleanup : Bool)
  | schedEvery (now interval : Int) (hasCleanup runImmediately skipIfLate : Bool)
  | cancel (id : Int)
  | tickOp (now : Int)
deriving Repr, DecidableEq

/-- Run one operation, returning the next state and the events it emitted. -/
def runOp (s : Scheduler) : Op → Scheduler × List Event
  | .schedAt t hc => ((Scheduler.scheduleAt s t hc).1, [])
  | .schedAfter n d hc => ((Scheduler.scheduleAfter s n d hc).1, [])
  | .schedEvery n i hc ri sl => ((Scheduler.scheduleEvery s n i hc ri sl).1, [])
  | .cancel i =>
    let r := Scheduler.cancelTask s i
    (r.1, r.2.2)
  | .tickOp n => Scheduler.tick s n

/-- Run a sequence of operations, concatenating the event traces. -/
def runOps (s : Scheduler) : List Op → Scheduler × List Event
  | [] => (s, [])
  | op :: ops =>
    let r := runOp s op
    let r2 := runOps r.1 ops
    (r2.1, r.2 ++ r2.2)

/-- How many times the action of task i fires in a trace. -/
def actionCount (evs : List Event) (i : Int) : Nat :=
  evs.count (Event.runAction i)

/-- How many times the cleanup of task i fires in a trace. -/
def cleanupCount (evs : List Event) (i : Int) : Nat :=
  evs.count (Event.runCleanup i)

/-! ### Theorems -/

/-- C1: the spec requires cancelTask to return false for an id that refers to
an already-inactive task and to fire cleanup only on the transition from
active to inactive. The source looks a task up by id alone, so cancelling
the same id twice before the purging tick returns true again and fires the
cleanup a second time. Failing input: schedule a one-shot task with a
cleanup, then call cancelTask 1 twice with no tick in between. -/
theorem cancelTask_second_call_returns_true :
    (Scheduler.cancelTask
      (Scheduler.cancelTask (Scheduler.scheduleAt Scheduler.init 100 true).1 1).1
      1).2.1 = true ∧
    (Scheduler.cancelTask
      (Scheduler.cancelTask (Scheduler.scheduleAt Scheduler.init 100 true).1 1).1
      1).2.2 = [Event.runCleanup 1] := by
  decide

/-- C2: the spec bounds cleanup invocations at one per task over any sequence
of operations, but the sequence schedule, cancel, cancel (no tick in between)
makes the source fire the cleanup of task 1 twice, because cancelTask does
not test the active flag before firing cleanup. -/
theorem cleanup_fires_twice_on_double_cancel :
    cleanupCount
      (runOps Scheduler.init [Op.schedAt 100 true, Op.cancel 1, Op.cancel 1]).2
      1 = 2 := by
  decide

/-- C3 counterexample: a task created by scheduleEvery with interval zero is
deactivated by the tick that runs it, its cleanup fires on completion, it is
purged from the store, and it does not run on a subsequent tick - refuting
the claim that it stays active, is not cleaned up and runs on every tick. -/
theorem scheduleEvery_zero_cex :
    (Scheduler.tick
      ((Scheduler.scheduleEvery Scheduler.init 0 0 true true false).1) 0).1.m_tasks
      = [] ∧
    cleanupCount
      (Scheduler.tick
        ((Scheduler.scheduleEvery Scheduler.init 0 0 true true false).1) 0).2 1
      = 1 ∧
    actionCount
      (Scheduler.tick
        (Scheduler.tick
          ((Scheduler.scheduleEvery Scheduler.init 0 0 true true false).1) 0).1
        100).2 1 = 0 := by
  decide

/-- C5 counterexample: schedule a one-shot task at time 100 and cancel it
before any tick. The only stored task is inactive, so the scheduler has no
active tasks, yet timeUntilNextTask at now = 0 still returns some 100 because
cancelTask never updates the cached m_nextTaskTime - refuting the claim that
none is returned exactly when there is no active task. -/
theorem timeUntilNextTask_stale_cache_cex :
    ((Scheduler.cancelTask (Scheduler.scheduleAt Scheduler.init 100 true).1 1).1.m_tasks
      = [{ id := 1, hasCleanup := true, interval := 0, nextRun := 100,
           skipIfLate := false, active := false }]) ∧
    Scheduler.timeUntilNextTask
      (Scheduler.cancelTask (Scheduler.scheduleAt Scheduler.init 100 true).1 1).1 0
      = some 100 := by
  decide

/-- C7: lua_schedule_after rejects a negative delay synchronously with the
InvalidArgument error message, before the scheduler is touched: no ok result
carrying a state and a task id is ever produced for a negative delay. -/
theorem lua_schedule_after_negative_rejected (s : Scheduler) (now delayMs : Int)
    (hc : Bool) (hneg : delayMs < 0) :
    lua_schedule_after s now delayMs hc = Except.error delayErrMsg ∧
    ∀ s2 : Scheduler, ∀ id : Int,
      lua_schedule_after s now delayMs hc ≠ Except.ok (s2, id) := by
  simp [lua_schedule_after, hneg]

/-- Witness for C7 at the concrete input delay = -1 of the spec. -/
theorem lua_schedule_after_negative_rejected_witness :
    (-1 : Int) < 0 ∧
    (lua_schedule_after Scheduler.init 0 (-1) false = Except.error delayErrMsg ∧
     ∀ s2 : Scheduler, ∀ id : Int,
       lua_schedule_after Scheduler.init 0 (-1) false ≠ Except.ok (s2, id)) :=
  ⟨by decide,
   lua_schedule_after_negative_rejected Scheduler.init 0 (-1) false (by decide)⟩

/-- C9: given a nonnegative run duration and counters within range, every
metric counter of noteTaskRun is monotone, stays within its maximum
representable value, and on each update either advances by its increment or
pins at the maximum; it never wraps and never becomes smaller. -/
theorem noteTaskRun_saturates (m : Metrics) (runTime : Int) (wasLate : Bool)
    (hrt : 0 ≤ runTime) (h1 : m.m_totalRuns ≤ UINT_MAX)
    (h2 : m.m_lateRuns ≤ UINT_MAX) (h3 : m.m_totalRunTime ≤ DURMS_MAX) :
    (m.m_totalRuns ≤ (noteTaskRun m runTime wasLate).m_totalRuns ∧
      (noteTaskRun m runTime wasLate).m_totalRuns ≤ UINT_MAX ∧
      ((noteTaskRun m runTime wasLate).m_totalRuns = m.m_totalRuns + 1 ∨
        (noteTaskRun m runTime wasLate).m_totalRuns = UINT_MAX)) ∧
    (m.m_lateRuns ≤ (noteTaskRun m runTime wasLate).m_lateRuns ∧
      (noteTaskRun m runTime wasLate).m_lateRuns ≤ UINT_MAX ∧
      (wasLate = true →
        ((noteTaskRun m runTime wasLate).m_lateRuns = m.m_lateRuns + 1 ∨
          (noteTaskRun m runTime wasLate).m_lateRuns = UINT_MAX)) ∧
      (wasLate = false →
        (noteTaskRun m runTime wasLate).m_lateRuns = m.m_lateRuns)) ∧
    (m.m_totalRunTime ≤ (noteTaskRun m runTime wasLate).m_totalRunTime ∧
      (noteTaskRun m runTime wasLate).m_totalRunTime ≤ DURMS_MAX ∧
      ((noteTaskRun m runTime wasLate).m_totalRunTime
          = m.m_totalRunTime + runTime ∨
        (noteTaskRun m runTime wasLate).m_totalRunTime = DURMS_MAX)) := by
  simp only [noteTaskRun, UINT_MAX, DURMS_MAX] at *
  refine ⟨⟨?_, ?_, ?_⟩, ⟨?_, ?_, ?_, ?_⟩, ⟨?_, ?_, ?_⟩⟩
  · split_ifs <;> omega
  · split_ifs <;> omega
  · split_ifs <;> omega
  · split_ifs with h
    · omega
    · omega
  · split_ifs with h
    · obtain ⟨-, hlt⟩ := h
      omega
    · omega
  · intro hw
    subst hw
    simp only [true_and]
    split_ifs with h
    · left
      omega
    · right
      omega
  · intro hw
    subst hw
    simp
  · split_ifs <;> omega
  · split_ifs <;> omega
  · split_ifs <;> omega

/-- Witness for C9 at a concrete metric state and run. -/
theorem noteTaskRun_saturates_witness :
    ((0 : Int) ≤ 1 ∧ (5 : Nat) ≤ UINT_MAX ∧ (2 : Nat) ≤ UINT_MAX ∧
      (7 : Int) ≤ DURMS_MAX) ∧
    ((5 : Nat) ≤ (noteTaskRun ⟨5, 2, 7⟩ 1 true).m_totalRuns ∧
      (noteTaskRun ⟨5, 2, 7⟩ 1 true).m_totalRuns ≤ UINT_MAX ∧
      ((noteTaskRun ⟨5, 2, 7⟩ 1 true).m_totalRuns = 5 + 1 ∨
        (noteTaskRun ⟨5, 2, 7⟩ 1 true).m_totalRuns = UINT_MAX)) ∧
    ((2 : Nat) ≤ (noteTaskRun ⟨5, 2, 7⟩ 1 true).m_lateRuns ∧
      (noteTaskRun ⟨5, 2, 7⟩ 1 true).m_lateRuns ≤ UINT_MAX ∧
      (true = true →
        ((noteTaskRun ⟨5, 2, 7⟩ 1 true).m_lateRuns = 2 + 1 ∨
          (noteTaskRun ⟨5, 2, 7⟩ 1 true).m_lateRuns = UINT_MAX)) ∧
      (true = false →
        (noteTaskRun ⟨5, 2, 7⟩ 1 true).m_lateRuns = 2)) ∧
    ((7 : Int) ≤ (noteTaskRun ⟨5, 2, 7⟩ 1 true).m_totalRunTime ∧
      (noteTaskRun ⟨5, 2, 7⟩ 1 true).m_totalRunTime ≤ DURMS_MAX ∧
      ((noteTaskRun ⟨5, 2, 7⟩ 1 true).m_totalRunTime = 7 + 1 ∨
        (noteTaskRun ⟨5, 2, 7⟩ 1 true).m_totalRunTime = DURMS_MAX)) :=
  ⟨⟨by decide, by decide, by decide, by decide⟩,
    noteTaskRun_saturates ⟨5, 2, 7⟩ 1 true (by decide) (by decide) (by decide)
      (by decide)⟩

/-- One iteration of the catch-up loop in tick: while nextRun is at or before
now, the body adds one interval. -/
theorem skipAhead_step (now interval nextRun : Int)
    (h1 : 0 < interval) (h2 : nextRun ≤ now) :
    Scheduler.skipAhead now interval nextRun
      = Scheduler.skipAhead now interval (nextRun + interval) := by
  rw [Scheduler.skipAhead.eq_def]
  rw [dif_pos h1, dif_pos h2]

/-- Exit of the catch-up loop: once nextRun is strictly beyond now the value
is returned unchanged. -/
theorem skipAhead_exit (now interval nextRun : Int) (h2 : now < nextRun) :
    Scheduler.skipAhead now interval nextRun = nextRun := by
  rw [Scheduler.skipAhead.eq_def]
  split_ifs with h1 hle
  · exact absurd hle (not_le.mpr h2)
  · rfl
  · rfl

/-- Characterisation of the catch-up loop for a due task and a positive
interval, by induction on a bound g for the gap now - nextRun: the loop adds
the interval a positive finite number k of times, the result is strictly
beyond now, and one interval earlier it was still at or before now. -/
theorem skipAhead_go (now interval : Int) (hpos : 0 < interval) :
    ∀ g : Nat, ∀ nextRun : Int, (now - nextRun).toNat ≤ g → nextRun ≤ now →
      ∃ k : Nat, 1 ≤ k ∧
        Scheduler.skipAhead now interval nextRun
          = nextRun + (k : Int) * interval ∧
        nextRun + ((k : Int) - 1) * interval ≤ now ∧
        now < nextRun + (k : Int) * interval := by
  intro g
  induction g with
  | zero =>
    intro nextRun hg hle
    refine ⟨1, le_refl 1, ?_, ?_, ?_⟩
    · rw [skipAhead_step now interval nextRun hpos hle,
        skipAhead_exit now interval _ (by omega)]
      push_cast
      ring
    · have h' : nextRun + (((1 : Nat) : Int) - 1) * interval = nextRun := by
        push_cast
        ring
      rw [h']
      exact hle
    · have h' : nextRun + ((1 : Nat) : Int) * interval = nextRun + interval := by
        push_cast
        ring
      rw [h']
      omega
  | succ g ih =>
    intro nextRun hg hle
    by_cases hc : now < nextRun + interval
    · refine ⟨1, le_refl 1, ?_, ?_, ?_⟩
      · rw [skipAhead_step now interval nextRun hpos hle,
          skipAhead_exit now interval _ hc]
        push_cast
        ring
      · have h' : nextRun + (((1 : Nat) : Int) - 1) * interval = nextRun := by
          push_cast
          ring
        rw [h']
        exact hle
      · have h' : nextRun + ((1 : Nat) : Int) * interval = nextRun + interval := by
          push_cast
          ring
        rw [h']
        exact hc
    · push_neg at hc
      have hg2 : (now - (nextRun + interval)).toNat ≤ g := by omega
      obtain ⟨k, hk1, heq, hmin, hgt⟩ := ih (nextRun + interval) hg2 hc
      refine ⟨k + 1, by omega, ?_, ?_, ?_⟩
      · rw [skipAhead_step now interval nextRun hpos hle, heq]
        push_cast
        ring
      · have h' : nextRun + (((k + 1 : Nat) : Int) - 1) * interval
            = nextRun + interval + ((k : Int) - 1) * interval := by
          push_cast
          ring
        rw [h']
        exact hmin
      · have h' : nextRun + ((k + 1 : Nat) : Int) * interval
            = nextRun + interval + (k : Int) * interval := by
          push_cast
          ring
        rw [h']
        exact hgt

/-- C10: the catch-up loop of tick terminates for a task with a positive
interval: from a due nextRun it performs a finite, positive number k of
interval additions, each strictly increasing nextRun, and stops at a value
strictly greater than the now captured at the start of the tick. -/
theorem skipAhead_loop_terminates (now interval nextRun : Int)
    (hpos : 0 < interval) (hdue : nextRun ≤ now) :
    ∃ k : Nat, 1 ≤ k ∧
      Scheduler.skipAhead now interval nextRun
        = nextRun + (k : Int) * interval ∧
      now < Scheduler.skipAhead now interval nextRun := by
  obtain ⟨k, hk1, heq, -, hgt⟩ :=
    skipAhead_go now interval hpos (now - nextRun).toNat nextRun (le_refl _) hdue
  refine ⟨k, hk1, heq, ?_⟩
  rw [heq]
  exact hgt

/-- Witness for C10 at the concrete input of the spec scenario: interval 100,
task due at nextRun 0, tick at now 450. -/
theorem skipAhead_loop_terminates_witness :
    (0 : Int) < 100 ∧ (0 : Int) ≤ 450 ∧
    (∃ k : Nat, 1 ≤ k ∧
      Scheduler.skipAhead 450 100 0 = 0 + (k : Int) * 100 ∧
      450 < Scheduler.skipAhead 450 100 0) :=
  ⟨by decide, by decide,
    skipAhead_loop_terminates 450 100 0 (by decide) (by decide)⟩

/-- C4: when tick runs a due recurring task (positive interval): with
skipIfLate false the new nextRun is exactly the old nextRun plus one
interval, even if that is still at or before now; with skipIfLate true the
new nextRun is the smallest old nextRun + k * interval, for a positive
integer k, that is strictly greater than now. -/
theorem tick_reschedule_policy (t : Task) (now : Int)
    (hact : t.active = true) (hdue : t.nextRun ≤ now) (hpos : 0 < t.interval) :
    (t.skipIfLate = false →
      ((Scheduler.processTask now t).1).nextRun = t.nextRun + t.interval) ∧
    (t.skipIfLate = true →
      now < ((Scheduler.processTask now t).1).nextRun ∧
      (∃ k : Nat, 1 ≤ k ∧
        ((Scheduler.processTask now t).1).nextRun
          = t.nextRun + (k : Int) * t.interval) ∧
      (∀ j : Nat, 1 ≤ j → now < t.nextRun + (j : Int) * t.interval →
        ((Scheduler.processTask now t).1).nextRun
          ≤ t.nextRun + (j : Int) * t.interval)) := by
  constructor
  · intro hsl
    simp [Scheduler.processTask, hact, hdue, hpos, hsl]
  · intro hsl
    have hpt : ((Scheduler.processTask now t).1).nextRun
        = Scheduler.skipAhead now t.interval t.nextRun := by
      simp [Scheduler.processTask, hact, hdue, hpos, hsl]
    obtain ⟨k, hk1, heq, hmin, hgt⟩ :=
      skipAhead_go now t.interval hpos (now - t.nextRun).toNat t.nextRun
        (le_refl _) hdue
    refine ⟨?_, ⟨k, hk1, ?_⟩, ?_⟩
    · rw [hpt, heq]
      exact hgt
    · rw [hpt]
      exact heq
    · intro j hj hjgt
      rw [hpt, heq]
      have hlt : ((k : Int) - 1) * t.interval < (j : Int) * t.interval := by
        linarith
      have hkj : (k : Int) - 1 < (j : Int) :=
        lt_of_mul_lt_mul_right hlt (le_of_lt hpos)
      have hkj2 : (k : Int) ≤ (j : Int) := by omega
      have hmul := mul_le_mul_of_nonneg_right hkj2 (le_of_lt hpos)
      linarith

/-- Witness for C4 at the spec scenario: a recurring task with skipIfLate
true, interval 100, original nextRun 0, run by a tick at now 450. -/
theorem tick_reschedule_policy_witness :
    ((⟨7, false, 100, 0, true, true⟩ : Task).active = true ∧
      (⟨7, false, 100, 0, true, true⟩ : Task).nextRun ≤ 450 ∧
      0 < (⟨7, false, 100, 0, true, true⟩ : Task).interval) ∧
    (((⟨7, false, 100, 0, true, true⟩ : Task).skipIfLate = false →
      ((Scheduler.processTask 450 ⟨7, false, 100, 0, true, true⟩).1).nextRun
        = (⟨7, false, 100, 0, true, true⟩ : Task).nextRun
          + (⟨7, false, 100, 0, true, true⟩ : Task).interval) ∧
    ((⟨7, false, 100, 0, true, true⟩ : Task).skipIfLate = true →
      450 < ((Scheduler.processTask 450 ⟨7, false, 100, 0, true, true⟩).1).nextRun ∧
      (∃ k : Nat, 1 ≤ k ∧
        ((Scheduler.processTask 450 ⟨7, false, 100, 0, true, true⟩).1).nextRun
          = (⟨7, false, 100, 0, true, true⟩ : Task).nextRun
            + (k : Int) * (⟨7, false, 100, 0, true, true⟩ : Task).interval) ∧
      (∀ j : Nat, 1 ≤ j →
        450 < (⟨7, false, 100, 0, true, true⟩ : Task).nextRun
          + (j : Int) * (⟨7, false, 100, 0, true, true⟩ : Task).interval →
        ((Scheduler.processTask 450 ⟨7, false, 100, 0, true, true⟩).1).nextRun
          ≤ (⟨7, false, 100, 0, true, true⟩ : Task).nextRun
            + (j : Int) * (⟨7, false, 100, 0, true, true⟩ : Task).interval))) :=
  ⟨⟨rfl, by decide, by decide⟩,
    tick_reschedule_policy ⟨7, false, 100, 0, true, true⟩ 450 rfl (by decide)
      (by decide)⟩

/-- Counting actions distributes over trace concatenation. -/
theorem actionCount_append (a b : List Event) (i : Int) :
    actionCount (a ++ b) i = actionCount a i + actionCount b i := by
  simp [actionCount, List.count_append]

/-- Counting cleanups distributes over trace concatenation. -/
theorem cleanupCount_append (a b : List Event) (i : Int) :
    cleanupCount (a ++ b) i = cleanupCount a i + cleanupCount b i := by
  simp [cleanupCount, List.count_append]

/-- A trace whose events all carry ids other than i contains no action and no
cleanup of task i. -/
theorem count_zero_of_evId (evs : List Event) (i : Int)
    (h : ∀ e ∈ evs, e.evId ≠ i) :
    actionCount evs i = 0 ∧ cleanupCount evs i = 0 := by
  constructor
  · rw [actionCount, List.count_eq_zero]
    intro hmem
    exact h _ hmem rfl
  · rw [cleanupCount, List.count_eq_zero]
    intro hmem
    exact h _ hmem rfl

/-- The three shapes of a per-task trace: nothing, a bare action, or an
action followed by the optional cleanup (the one-shot completion case). -/
theorem processTask_events (now : Int) (t : Task) :
    (Scheduler.processTask now t).2 = [] ∨
    (Scheduler.processTask now t).2 = [Event.runAction t.id] ∨
    (Scheduler.processTask now t).2
      = Event.runAction t.id ::
          (if t.hasCleanup then [Event.runCleanup t.id] else []) := by
  simp only [Scheduler.processTask]
  split_ifs <;> simp

/-- Every event a task emits from the tick loop carries the id of that task. -/
theorem processTask_evId (now : Int) (t : Task) :
    ∀ e ∈ (Scheduler.processTask now t).2, e.evId = t.id := by
  intro e he
  rcases processTask_events now t with hev | hev | hev <;> rw [hev] at he
  · exact absurd he (List.not_mem_nil e)
  · rw [List.mem_singleton] at he
    subst he
    rfl
  · rcases List.mem_cons.mp he with rfl | he2
    · rfl
    · by_cases hcl : t.hasCleanup
      · rw [if_pos hcl, List.mem_singleton] at he2
        subst he2
        rfl
      · rw [if_neg hcl] at he2
        exact absurd he2 (List.not_mem_nil e)

/-- Processing a task never changes its id. -/
theorem processTask_id (now : Int) (t : Task) :
    ((Scheduler.processTask now t).1).id = t.id := by
  simp only [Scheduler.processTask]
  split_ifs <;> rfl

/-- A due one-shot task (interval zero) is deactivated by the loop body and
emits its action followed by its optional cleanup. -/
theorem processTask_oneshot (now : Int) (t : Task) (hact : t.active = true)
    (hint : t.interval = 0) (hdue : t.nextRun ≤ now) :
    Scheduler.processTask now t
      = ({ t with active := false },
         Event.runAction t.id ::
           (if t.hasCleanup then [Event.runCleanup t.id] else [])) := by
  simp [Scheduler.processTask, hact, hdue, hint]

/-- An active task that is recurring or not yet due stays active through the
loop body. -/
theorem processTask_active_of (now : Int) (t : Task) (hact : t.active = true)
    (h : 0 < t.interval ∨ now < t.nextRun) :
    ((Scheduler.processTask now t).1).active = true := by
  rcases h with h | h
  · by_cases hdue : t.nextRun ≤ now
    · by_cases hsl : t.skipIfLate <;>
        simp [Scheduler.processTask, hact, hdue, h, hsl]
    · simp [Scheduler.processTask, hact, hdue]
  · have hdue : ¬ t.nextRun ≤ now := by omega
    simp [Scheduler.processTask, hact, hdue]

/-- The events of a tick are the flattened per-task traces in store order. -/
theorem tick_events (s : Scheduler) (now : Int) :
    (Scheduler.tick s now).2
      = (s.m_tasks.map (fun u => (Scheduler.processTask now u).2)).flatten := by
  simp only [Scheduler.tick, List.map_map]
  rfl

/-- The store after a tick holds the processed tasks that are still active. -/
theorem tick_store (s : Scheduler) (now : Int) :
    (Scheduler.tick s now).1.m_tasks
      = ((s.m_tasks.map (fun u => (Scheduler.processTask now u).1)).filter
          (fun u => u.active)) := by
  simp only [Scheduler.tick, List.map_map]
  rfl

/-- The cached next-task time after a tick: the sentinel when the purged
store is empty, else the fold of the per-iteration cache update. -/
theorem tick_ntt (s : Scheduler) (now : Int) :
    (Scheduler.tick s now).1.m_nextTaskTime
      = (if ((s.m_tasks.map (fun u => (Scheduler.processTask now u).1)).filter
            (fun u => u.active)).isEmpty
         then none
         else (s.m_tasks.map (fun u => (Scheduler.processTask now u).1)).foldl
            Scheduler.nttFold none) := by
  simp only [Scheduler.tick, List.map_map]
  rfl

/-- A list of tasks with ids other than i contributes no events for i. -/
theorem trace_count_zero (now : Int) (i : Int) (l : List Task)
    (h : ∀ u ∈ l, u.id ≠ i) :
    actionCount ((l.map (fun u => (Scheduler.processTask now u).2)).flatten) i
      = 0 ∧
    cleanupCount ((l.map (fun u => (Scheduler.processTask now u).2)).flatten) i
      = 0 := by
  induction l with
  | nil => simp [actionCount, cleanupCount]
  | cons t ts ih =>
    have ht : t.id ≠ i := h t (List.mem_cons_self t ts)
    have hts := ih (fun u hu => h u (List.mem_cons_of_mem t hu))
    have hhead : ∀ e ∈ (Scheduler.processTask now t).2, e.evId ≠ i := by
      intro e he
      rw [processTask_evId now t e he]
      exact ht
    have hz := count_zero_of_evId _ i hhead
    simp only [List.map_cons, List.flatten_cons, actionCount_append,
      cleanupCount_append]
    constructor
    · rw [hz.1, hts.1]
    · rw [hz.2, hts.2]

/-- A tick over a store containing no task with id i emits no events for i. -/
theorem tick_count_zero (s : Scheduler) (now : Int) (i : Int)
    (h : ∀ u ∈ s.m_tasks, u.id ≠ i) :
    actionCount (Scheduler.tick s now).2 i = 0 ∧
    cleanupCount (Scheduler.tick s now).2 i = 0 := by
  rw [tick_events]
  exact trace_count_zero now i s.m_tasks h

/-- Every task left in the store by a tick is active (the purge removed the
inactive ones). -/
theorem tick_tasks_active (s : Scheduler) (now : Int) :
    ∀ u ∈ (Scheduler.tick s now).1.m_tasks, u.active = true := by
  intro u hu
  rw [tick_store] at hu
  exact (List.mem_filter.mp hu).2

/-- The per-iteration cache update sends a non-sentinel value to a
non-sentinel value. -/
theorem nttFold_preserves_some (x : Int) (t : Task) :
    ∃ y, Scheduler.nttFold (some x) t = some y := by
  rw [Scheduler.nttFold]
  split_ifs
  · exact ⟨t.nextRun, rfl⟩
  · exact ⟨x, rfl⟩

/-- Folding the cache update from a non-sentinel value stays non-sentinel. -/
theorem foldl_nttFold_some (l : List Task) (x : Int) :
    ∃ y, l.foldl Scheduler.nttFold (some x) = some y := by
  induction l generalizing x with
  | nil => exact ⟨x, rfl⟩
  | cons t ts ih =>
    rw [List.foldl_cons]
    obtain ⟨y, hy⟩ := nttFold_preserves_some x t
    rw [hy]
    exact ih y

/-- If some task in the list is active, the cache fold does not end at the
sentinel. -/
theorem foldl_nttFold_ne_none (l : List Task) (hex : ∃ u ∈ l, u.active = true)
    (acc : Option Int) : l.foldl Scheduler.nttFold acc ≠ none := by
  induction l generalizing acc with
  | nil => simp at hex
  | cons t ts ih =>
    rw [List.foldl_cons]
    by_cases hact : t.active = true
    · have hsome : ∃ y, Scheduler.nttFold acc t = some y := by
        cases acc with
        | none => exact ⟨t.nextRun, by simp [Scheduler.nttFold, hact, timeLt]⟩
        | some x => exact nttFold_preserves_some x t
      obtain ⟨y, hy⟩ := hsome
      rw [hy]
      obtain ⟨z, hz⟩ := foldl_nttFold_some ts y
      rw [hz]
      exact Option.some_ne_none z
    · rcases hex with ⟨u, hu, hua⟩
      rcases List.mem_cons.mp hu with rfl | hu2
      · exact absurd hua hact
      · have hfa : t.active = false := by
          cases h : t.active
          · rfl
          · exact absurd h hact
        have hacc : Scheduler.nttFold acc t = acc := by
          simp [Scheduler.nttFold, hfa]
        rw [hacc]
        exact ih ⟨u, hu2, hua⟩ acc

/-- Core lemma for the one-shot lifecycle: in a store l1 ++ t :: l2 where no
other task shares the id of t, a tick at a time at which the one-shot t is
due runs the action of t exactly once, fires its cleanup exactly once when
present, and leaves no task with that id in the store. -/
theorem tick_oneshot_middle (l1 l2 : List Task) (t : Task) (now : Int)
    (hne1 : ∀ u ∈ l1, u.id ≠ t.id) (hne2 : ∀ u ∈ l2, u.id ≠ t.id)
    (hact : t.active = true) (hint : t.interval = 0) (hdue : t.nextRun ≤ now)
    (s : Scheduler) (hs : s.m_tasks = l1 ++ t :: l2) :
    actionCount (Scheduler.tick s now).2 t.id = 1 ∧
    cleanupCount (Scheduler.tick s now).2 t.id
      = (if t.hasCleanup then 1 else 0) ∧
    t.id ∉ (Scheduler.tick s now).1.m_tasks.map Task.id := by
  have hpt := processTask_oneshot now t hact hint hdue
  have hev : (Scheduler.tick s now).2
      = (l1.map (fun u => (Scheduler.processTask now u).2)).flatten
        ++ ((Scheduler.processTask now t).2
          ++ (l2.map (fun u => (Scheduler.processTask now u).2)).flatten) := by
    rw [tick_events, hs]
    simp
  have hmidA : actionCount (Scheduler.processTask now t).2 t.id = 1 := by
    rw [hpt]
    by_cases hcl : t.hasCleanup <;> simp [actionCount, hcl, List.count_cons]
  have hmidC : cleanupCount (Scheduler.processTask now t).2 t.id
      = (if t.hasCleanup then 1 else 0) := by
    rw [hpt]
    by_cases hcl : t.hasCleanup <;> simp [cleanupCount, hcl, List.count_cons]
  refine ⟨?_, ?_, ?_⟩
  · rw [hev, actionCount_append, actionCount_append,
      (trace_count_zero now t.id l1 hne1).1, (trace_count_zero now t.id l2 hne2).1,
      hmidA]
  · rw [hev, cleanupCount_append, cleanupCount_append,
      (trace_count_zero now t.id l1 hne1).2, (trace_count_zero now t.id l2 hne2).2,
      hmidC]
    by_cases hcl : t.hasCleanup <;> simp [hcl]
  · rw [tick_store, hs]
    intro hcontra
    rw [List.mem_map] at hcontra
    obtain ⟨u', hu'mem, hu'id⟩ := hcontra
    rw [List.mem_filter] at hu'mem
    obtain ⟨hu'map, hu'act⟩ := hu'mem
    rw [List.mem_map] at hu'map
    obtain ⟨u, humem, hueq⟩ := hu'map
    have huid : u.id = t.id := by
      rw [← hueq, processTask_id] at hu'id
      exact hu'id
    rcases List.mem_append.mp humem with h1 | h2
    · exact hne1 u h1 huid
    · rcases List.mem_cons.mp h2 with rfl | h3
      · rw [← hueq, hpt] at hu'act
        simp at hu'act
      · exact hne2 u h3 huid

/-- C6: a one-shot task (interval zero) that is due at a tick has its action
run exactly once and its cleanup (when present) fired exactly once by that
tick, is removed from the store before the tick returns - no task with its id
remains, and a following tick runs nothing for it - and, when every other
task survives the tick, taskCount decreases by exactly one. -/
theorem oneshot_runs_once_then_removed (s : Scheduler) (now : Int) (t : Task)
    (hmem : t ∈ s.m_tasks) (hnd : (s.m_tasks.map Task.id).Nodup)
    (hact : t.active = true) (hint : t.interval = 0) (hdue : t.nextRun ≤ now) :
    actionCount (Scheduler.tick s now).2 t.id = 1 ∧
    cleanupCount (Scheduler.tick s now).2 t.id
      = (if t.hasCleanup then 1 else 0) ∧
    t.id ∉ (Scheduler.tick s now).1.m_tasks.map Task.id ∧
    (∀ now2 : Int,
      actionCount (Scheduler.tick (Scheduler.tick s now).1 now2).2 t.id = 0) ∧
    ((∀ u ∈ s.m_tasks, u.id ≠ t.id →
        u.active = true ∧ (0 < u.interval ∨ now < u.nextRun)) →
      Scheduler.taskCount (Scheduler.tick s now).1
        = Scheduler.taskCount s - 1) := by
  obtain ⟨l1, l2, hsplit⟩ := List.append_of_mem hmem
  have hnd2 : (l1.map Task.id ++ t.id :: l2.map Task.id).Nodup := by
    rw [hsplit] at hnd
    simpa using hnd
  have hnotmem : t.id ∉ l1.map Task.id ++ l2.map Task.id :=
    (List.nodup_cons.mp (List.nodup_middle.mp hnd2)).1
  have hne1 : ∀ u ∈ l1, u.id ≠ t.id := by
    intro u hu heq
    exact hnotmem
      (List.mem_append_left _ (heq ▸ List.mem_map_of_mem Task.id hu))
  have hne2 : ∀ u ∈ l2, u.id ≠ t.id := by
    intro u hu heq
    exact hnotmem
      (List.mem_append_right _ (heq ▸ List.mem_map_of_mem Task.id hu))
  obtain ⟨hA, hC, habs⟩ :=
    tick_oneshot_middle l1 l2 t now hne1 hne2 hact hint hdue s hsplit
  refine ⟨hA, hC, habs, ?_, ?_⟩
  · intro now2
    have hids : ∀ u ∈ (Scheduler.tick s now).1.m_tasks, u.id ≠ t.id := by
      intro u hu heq
      exact habs (heq ▸ List.mem_map_of_mem Task.id hu)
    exact (tick_count_zero _ now2 t.id hids).1
  · intro hsurv
    rw [Scheduler.taskCount, Scheduler.taskCount, tick_store, hsplit]
    have hta : ((Scheduler.processTask now t).1).active = false := by
      rw [processTask_oneshot now t hact hint hdue]
    have hfl1 : (l1.map (fun u => (Scheduler.processTask now u).1)).filter
        (fun u => u.active)
        = l1.map (fun u => (Scheduler.processTask now u).1) := by
      rw [List.filter_eq_self]
      intro a ha
      rw [List.mem_map] at ha
      obtain ⟨u, hu, rfl⟩ := ha
      have hu' := hsurv u (by rw [hsplit]; exact List.mem_append_left _ hu)
        (hne1 u hu)
      exact processTask_active_of now u hu'.1 hu'.2
    have hfl2 : (l2.map (fun u => (Scheduler.processTask now u).1)).filter
        (fun u => u.active)
        = l2.map (fun u => (Scheduler.processTask now u).1) := by
      rw [List.filter_eq_self]
      intro a ha
      rw [List.mem_map] at ha
      obtain ⟨u, hu, rfl⟩ := ha
      have hu' := hsurv u
        (by rw [hsplit]; exact List.mem_append_right _ (List.mem_cons_of_mem t hu))
        (hne2 u hu)
      exact processTask_active_of now u hu'.1 hu'.2
    rw [List.map_append, List.map_cons, List.filter_append, List.filter_cons]
    simp only [hta, hfl1, hfl2]
    simp [List.length_append]

/-- Witness for C6: a store holding the single one-shot task id 1 with a
cleanup, due at time 0, ticked at time 0. -/
theorem oneshot_runs_once_then_removed_witness :
    ((⟨1, true, 0, 0, false, true⟩ : Task)
        ∈ (Scheduler.scheduleAt Scheduler.init 0 true).1.m_tasks ∧
      ((Scheduler.scheduleAt Scheduler.init 0 true).1.m_tasks.map Task.id).Nodup ∧
      (⟨1, true, 0, 0, false, true⟩ : Task).active = true ∧
      (⟨1, true, 0, 0, false, true⟩ : Task).interval = 0 ∧
      (⟨1, true, 0, 0, false, true⟩ : Task).nextRun ≤ 0) ∧
    (actionCount
        (Scheduler.tick (Scheduler.scheduleAt Scheduler.init 0 true).1 0).2
        (⟨1, true, 0, 0, false, true⟩ : Task).id = 1 ∧
      cleanupCount
        (Scheduler.tick (Scheduler.scheduleAt Scheduler.init 0 true).1 0).2
        (⟨1, true, 0, 0, false, true⟩ : Task).id
        = (if (⟨1, true, 0, 0, false, true⟩ : Task).hasCleanup then 1 else 0) ∧
      (⟨1, true, 0, 0, false, true⟩ : Task).id ∉
        (Scheduler.tick (Scheduler.scheduleAt Scheduler.init 0 true).1 0).1.m_tasks.map
          Task.id ∧
      (∀ now2 : Int,
        actionCount
          (Scheduler.tick
            (Scheduler.tick (Scheduler.scheduleAt Scheduler.init 0 true).1 0).1
            now2).2
          (⟨1, true, 0, 0, false, true⟩ : Task).id = 0) ∧
      ((∀ u ∈ (Scheduler.scheduleAt Scheduler.init 0 true).1.m_tasks,
          u.id ≠ (⟨1, true, 0, 0, false, true⟩ : Task).id →
          u.active = true ∧ (0 < u.interval ∨ 0 < u.nextRun)) →
        Scheduler.taskCount
          (Scheduler.tick (Scheduler.scheduleAt Scheduler.init 0 true).1 0).1
          = Scheduler.taskCount (Scheduler.scheduleAt Scheduler.init 0 true).1
            - 1)) :=
  ⟨⟨by decide, by decide, rfl, rfl, by decide⟩,
    oneshot_runs_once_then_removed (Scheduler.scheduleAt Scheduler.init 0 true).1
      0 ⟨1, true, 0, 0, false, true⟩ (by decide) (by decide) rfl rfl (by decide)⟩

/-- C3 amended: a task created by scheduleEvery with interval zero is treated
as a one-shot task, matching the Task field comment interval: zero if
one-shot. The tick that finds it due runs its action exactly once, fires its
cleanup (when present) on completion, deactivates it and purges it from the
store; it does not remain active and does not run on subsequent ticks. -/
theorem scheduleEvery_zero_is_oneshot (s : Scheduler) (now tickNow : Int)
    (hc ri sl : Bool)
    (hfresh : ∀ u ∈ s.m_tasks, u.id ≠ s.m_nextId)
    (hdue : now ≤ tickNow) :
    actionCount
      (Scheduler.tick (Scheduler.scheduleEvery s now 0 hc ri sl).1 tickNow).2
      (Scheduler.scheduleEvery s now 0 hc ri sl).2 = 1 ∧
    cleanupCount
      (Scheduler.tick (Scheduler.scheduleEvery s now 0 hc ri sl).1 tickNow).2
      (Scheduler.scheduleEvery s now 0 hc ri sl).2 = (if hc then 1 else 0) ∧
    (Scheduler.scheduleEvery s now 0 hc ri sl).2 ∉
      (Scheduler.tick (Scheduler.scheduleEvery s now 0 hc ri sl).1
        tickNow).1.m_tasks.map Task.id := by
  have hdue' : ((⟨s.m_nextId, hc, 0, if ri then now else now + 0, sl, true⟩ :
      Task)).nextRun ≤ tickNow := by
    rcases ri <;> simpa using hdue
  have hnil : ∀ u ∈ ([] : List Task),
      u.id ≠ (⟨s.m_nextId, hc, 0, if ri then now else now + 0, sl, true⟩ :
        Task).id := by
    intro u hu
    exact absurd hu (List.not_mem_nil u)
  obtain ⟨hA, hC, habs⟩ :=
    tick_oneshot_middle s.m_tasks []
      ⟨s.m_nextId, hc, 0, if ri then now else now + 0, sl, true⟩ tickNow
      hfresh hnil rfl rfl hdue'
      (Scheduler.scheduleEvery s now 0 hc ri sl).1 rfl
  exact ⟨hA, hC, habs⟩

/-- Witness for C3 at the concrete input of the counterexample: scheduleEvery
on a fresh scheduler with interval 0, runImmediately true, a cleanup present,
ticked at time 0. -/
theorem scheduleEvery_zero_is_oneshot_witness :
    ((∀ u ∈ Scheduler.init.m_tasks, u.id ≠ Scheduler.init.m_nextId) ∧
      (0 : Int) ≤ 0) ∧
    (actionCount
        (Scheduler.tick
          (Scheduler.scheduleEvery Scheduler.init 0 0 true true false).1 0).2
        (Scheduler.scheduleEvery Scheduler.init 0 0 true true false).2 = 1 ∧
      cleanupCount
        (Scheduler.tick
          (Scheduler.scheduleEvery Scheduler.init 0 0 true true false).1 0).2
        (Scheduler.scheduleEvery Scheduler.init 0 0 true true false).2
        = (if true then 1 else 0) ∧
      (Scheduler.scheduleEvery Scheduler.init 0 0 true true false).2 ∉
        (Scheduler.tick
          (Scheduler.scheduleEvery Scheduler.init 0 0 true true false).1
          0).1.m_tasks.map Task.id) :=
  ⟨⟨by decide, by decide⟩,
    scheduleEvery_zero_is_oneshot Scheduler.init 0 0 true true false (by decide)
      (by decide)⟩

/-- C5 amended: timeUntilNextTask returns none exactly when the cached
m_nextTaskTime holds the sentinel, and otherwise returns zero when the cached
time is at or before now and the exact remaining duration otherwise. The
cache, not the set of active tasks, is authoritative: between a cancellation
and the next tick it can be stale, so a duration may be returned although no
active task exists; immediately after a tick the cache is the sentinel
exactly when the store is empty, and every stored task is then active. -/
theorem timeUntilNextTask_spec (s : Scheduler) (now : Int) :
    (Scheduler.timeUntilNextTask s now = none ↔ s.m_nextTaskTime = none) ∧
    (∀ u : Int, s.m_nextTaskTime = some u →
      Scheduler.timeUntilNextTask s now
        = some (if u ≤ now then 0 else u - now)) ∧
    (∀ prev : Scheduler, ∀ tickNow : Int,
      ((Scheduler.tick prev tickNow).1.m_nextTaskTime = none ↔
        (Scheduler.tick prev tickNow).1.m_tasks = []) ∧
      ∀ u ∈ (Scheduler.tick prev tickNow).1.m_tasks, u.active = true) := by
  refine ⟨?_, ?_, ?_⟩
  · rcases hm : s.m_nextTaskTime with _ | u <;>
      simp [Scheduler.timeUntilNextTask, hm]
    split_ifs <;> simp
  · intro u hm
    simp only [Scheduler.timeUntilNextTask, hm]
    split_ifs <;> simp
  · intro prev tickNow
    refine ⟨?_, tick_tasks_active prev tickNow⟩
    rw [tick_ntt, tick_store]
    by_cases hemp :
        ((prev.m_tasks.map (fun u => (Scheduler.processTask tickNow u).1)).filter
          (fun u => u.active)).isEmpty = true
    · rw [if_pos hemp]
      rw [List.isEmpty_iff] at hemp
      simp [hemp]
    · rw [if_neg hemp]
      have hne :
          (prev.m_tasks.map (fun u => (Scheduler.processTask tickNow u).1)).filter
            (fun u => u.active) ≠ [] := by
        intro hcon
        rw [hcon] at hemp
        exact hemp rfl
      have hex : ∃ v ∈ prev.m_tasks.map
          (fun u => (Scheduler.processTask tickNow u).1), v.active = true := by
        rcases List.exists_mem_of_ne_nil _ hne with ⟨v, hv⟩
        rw [List.mem_filter] at hv
        exact ⟨v, hv.1, hv.2⟩
      constructor
      · intro hcontra
        exact absurd hcontra (foldl_nttFold_ne_none _ hex none)
      · intro hcontra
        exact absurd hcontra hne

/-- Witness for C5 at the stale-cache state of the counterexample: one task
scheduled at time 100 then cancelled, observed at now = 0. -/
theorem timeUntilNextTask_spec_witness :
    (Scheduler.timeUntilNextTask
        (Scheduler.cancelTask (Scheduler.scheduleAt Scheduler.init 100 true).1
          1).1 0 = none ↔
      (Scheduler.cancelTask (Scheduler.scheduleAt Scheduler.init 100 true).1
          1).1.m_nextTaskTime = none) ∧
    (∀ u : Int,
      (Scheduler.cancelTask (Scheduler.scheduleAt Scheduler.init 100 true).1
          1).1.m_nextTaskTime = some u →
      Scheduler.timeUntilNextTask
        (Scheduler.cancelTask (Scheduler.scheduleAt Scheduler.init 100 true).1
          1).1 0 = some (if u ≤ 0 then 0 else u - 0)) ∧
    (∀ prev : Scheduler, ∀ tickNow : Int,
      ((Scheduler.tick prev tickNow).1.m_nextTaskTime = none ↔
        (Scheduler.tick prev tickNow).1.m_tasks = []) ∧
      ∀ u ∈ (Scheduler.tick prev tickNow).1.m_tasks, u.active = true) :=
  timeUntilNextTask_spec
    (Scheduler.cancelTask (Scheduler.scheduleAt Scheduler.init 100 true).1 1).1 0

end Rhythm
